import Mathlib

/-!
Verification of the `eosio.token` contract (`src/contracts/eosio.token/src/eosio.token.cpp`).

The contract is shallowly embedded as a state machine.  Assets carry a signed
amount (int64 in the source; the library `asset` operations check that amounts
stay within `[-(2^62-1), 2^62-1]` and abort otherwise, which we model as
checked operations).  The two multi-index tables (`stats`, `accounts`) are
modelled as association lists.  External collaborators (the clock,
`require_auth`, `is_account`, `symbol::is_valid`) are an `Env` of oracles.

Each action runs intra-transaction: a failed `check` halts execution and the
result carries the state as mutated so far (`RawResult.fail msg s`); the host
then rolls the whole transaction back (`applyAction`), which is how the chain
provides atomicity.  Integer arithmetic widths follow the source: the
`delta * 1000000` product in `calculate_avg` is `uint64_t` and so is reduced
mod `2^64`; the ppm ratios in `issue` are `int128_t` divisions truncated
toward zero and then converted to `uint64_t` (reduced mod `2^64`); a division
by zero traps in the VM, aborting the action, which we model as a failure.
-/

namespace EosioToken

/-- Account names (`eosio::name`); the empty name `""_n` is `0`. -/
abbrev Name := Nat

/-- Token symbol: a symbol code together with a precision. -/
structure Sym where
  code : Nat
  precision : Nat
deriving DecidableEq, Repr

/-- An `eosio::asset`: a signed 64-bit amount and a symbol. -/
structure Asset where
  amount : Int
  sym : Sym
deriving DecidableEq, Repr

/-- `asset::max_amount = 2^62 - 1`. -/
def maxAmount : Int := 4611686018427387903

/-- `asset::is_amount_within_range`. -/
def Asset.amount_within_range (a : Asset) : Prop :=
  -maxAmount ≤ a.amount ∧ a.amount ≤ maxAmount

instance (a : Asset) : Decidable a.amount_within_range := by
  unfold Asset.amount_within_range; infer_instance

/-- External collaborators: clock, authorization oracle, account existence,
symbol-validity predicate, and the contract's own account (`get_self()`). -/
structure Env where
  now : Nat
  auth : Name → Bool
  isAccount : Name → Bool
  validSym : Sym → Bool
  self : Name

/-- `asset::is_valid()`: amount within range and symbol valid. -/
def Asset.is_valid (env : Env) (a : Asset) : Prop :=
  a.amount_within_range ∧ env.validSym a.sym = true

instance (env : Env) (a : Asset) : Decidable (a.is_valid env) := by
  unfold Asset.is_valid; infer_instance

/-- Checked `asset` addition (`asset::operator+=`): requires equal symbols
and a result within range, else aborts. -/
def assetAdd (a b : Asset) : Except String Asset :=
  if a.sym = b.sym then
    if a.amount + b.amount < -maxAmount then .error "addition underflow"
    else if maxAmount < a.amount + b.amount then .error "addition overflow"
    else .ok ⟨a.amount + b.amount, a.sym⟩
  else .error "attempt to add asset with different symbol"

/-- Checked `asset` subtraction (`asset::operator-=`). -/
def assetSub (a b : Asset) : Except String Asset :=
  if a.sym = b.sym then
    if a.amount - b.amount < -maxAmount then .error "subtraction underflow"
    else if maxAmount < a.amount - b.amount then .error "subtraction overflow"
    else .ok ⟨a.amount - b.amount, a.sym⟩
  else .error "attempt to subtract asset with different symbol"

/-- One row of the `stats` table (`currency_stats`), fields as used by the
contract source. -/
structure CurrencyStats where
  supply : Asset
  max_supply : Asset
  issuer : Name
  avg_daily_inflation : Asset
  avg_yearly_inflation : Asset
  recall_ : Bool
  authorize : Bool
  authorizer : Name
  last_update : Nat
  daily_inf_per_limit : Nat
  yearly_inf_per_limit : Nat
  allowed_daily_inflation : Asset
deriving DecidableEq, Repr

/-- One row of an `accounts` table: the owning account (the table scope) and
its balance; the row's primary key is `bal.sym.code`. -/
structure BalRow where
  owner : Name
  bal : Asset
deriving DecidableEq, Repr

/-- The persistent contract state: the `stats` table rows (keyed by symbol
code) and all `accounts` rows. -/
structure State where
  stats : List (Nat × CurrencyStats)
  accounts : List BalRow
deriving DecidableEq, Repr

/-- Lookup in a `stats` row list by symbol code. -/
def findStat (l : List (Nat × CurrencyStats)) (c : Nat) : Option CurrencyStats :=
  (l.find? (fun p => p.1 == c)).map (fun p => p.2)

/-- `statstable.find(sym.code().raw())`. -/
def lookupStat (s : State) (c : Nat) : Option CurrencyStats :=
  findStat s.stats c

/-- Rewrite the `stats` row with key `c` in a row list. -/
def modStats (l : List (Nat × CurrencyStats)) (c : Nat) (f : CurrencyStats → CurrencyStats) :
    List (Nat × CurrencyStats) :=
  l.map (fun p => if p.1 = c then (p.1, f p.2) else p)

/-- `statstable.modify(st, ...)`: rewrite the row with key `c`. -/
def modifyStat (s : State) (c : Nat) (f : CurrencyStats → CurrencyStats) : State :=
  { s with stats := modStats s.stats c f }

/-- Does an `accounts` row belong to `owner` with primary key `c`? -/
def keyMatch (o : Name) (c : Nat) (r : BalRow) : Bool :=
  r.owner == o && r.bal.sym.code == c

/-- `from_acnts.find(value.symbol.code().raw())` in scope `owner`. -/
def findAccount (s : State) (o : Name) (c : Nat) : Option BalRow :=
  s.accounts.find? (keyMatch o c)

/-- Rewrite the balance of the row with key `(o, c)` in a row list. -/
def modAcc (l : List BalRow) (o : Name) (c : Nat) (nb : Asset) : List BalRow :=
  l.map (fun r => if keyMatch o c r then { r with bal := nb } else r)

/-- Rewrite the balance of the `accounts` row with key `(o, c)`. -/
def modifyAccount (s : State) (o : Name) (c : Nat) (nb : Asset) : State :=
  { s with accounts := modAcc s.accounts o c nb }

/-- Result of running one action inside a transaction: success with the new
state, or an aborted `check` with its message and the state as mutated so far
(which the host discards when it rolls the transaction back). -/
inductive RawResult where
  | ok (s : State)
  | fail (msg : String) (s : State)
deriving DecidableEq, Repr

/-- Did the action run to completion? -/
def RawResult.isOk : RawResult → Bool
  | .ok _ => true
  | .fail _ _ => false

/-- `eosio::check(cond, msg)`: continue when `cond` holds, else abort with
`msg`, surfacing the state `s` as mutated so far. -/
def chk (c : Prop) [Decidable c] (msg : String) (s : State) (k : RawResult) : RawResult :=
  if c then k else .fail msg s

/-- A table lookup that aborts with `msg` when the row is absent
(`get`, or `find` followed by a `check` against `end()`). -/
def mtch {α : Type} (x : Option α) (msg : String) (s : State) (k : α → RawResult) : RawResult :=
  match x with
  | none => .fail msg s
  | some a => k a

/-- Run a checked asset operation, aborting the action on its failure. -/
def mexc (x : Except String Asset) (s : State) (k : Asset → RawResult) : RawResult :=
  match x with
  | .error m => .fail m s
  | .ok a => k a

/-- Sequence two mutating steps, propagating an abort (with its partially
mutated state) from the first. -/
def seqR (x : RawResult) (k : State → RawResult) : RawResult :=
  match x with
  | .fail m sp => .fail m sp
  | .ok s1 => k s1

/-- `token::calculate_avg`.  `delta * milli` is computed in `uint64_t`, hence
the reduction mod `2^64`; the decayed average is an `int128_t` product and a
truncating division cast back to `int64_t`; the final `+` is the checked
`asset` addition. -/
def calculate_avg (delta window_span_secs : Nat) (current_avg new_issuance : Asset) :
    Except String Asset :=
  let milli : Nat := 1000000
  let window_travelled_raw : Nat := delta * milli % 2 ^ 64 / window_span_secs
  let window_travelled_ppm : Nat :=
    if window_travelled_raw > milli then milli else window_travelled_raw
  let reverse_travelled_ppm : Nat := milli - window_travelled_ppm
  assetAdd ⟨(current_avg.amount * (reverse_travelled_ppm : Int)).tdiv (milli : Int),
            new_issuance.sym⟩ new_issuance

/-- Conversion of a signed wide integer to `uint64_t`: reduction mod `2^64`. -/
def toU64 (x : Int) : Nat := (x.emod (2 ^ 64)).toNat

/-- The `stats` row emplaced by `token::create` (a default-constructed asset
has amount `0`, so `supply` starts at zero). -/
def createdStats (env : Env) (issuer : Name) (maximum_supply : Asset) : CurrencyStats :=
  { supply := ⟨0, maximum_supply.sym⟩,
    max_supply := maximum_supply,
    issuer := issuer,
    avg_daily_inflation := ⟨0, maximum_supply.sym⟩,
    avg_yearly_inflation := ⟨0, maximum_supply.sym⟩,
    recall_ := true,
    authorize := true,
    authorizer := 0,
    last_update := env.now,
    daily_inf_per_limit := 10000000000000000000,
    yearly_inf_per_limit := 10000000000000000000,
    allowed_daily_inflation := maximum_supply }

/-- `token::create`. -/
def create (env : Env) (issuer : Name) (maximum_supply : Asset) (s : State) : RawResult :=
  chk (env.auth env.self = true) "missing required authority" s
  (chk (env.validSym maximum_supply.sym = true) "invalid symbol name" s
  (chk (maximum_supply.is_valid env) "invalid supply" s
  (chk (0 < maximum_supply.amount) "max-supply must be positive" s
  (chk (lookupStat s maximum_supply.sym.code = none) "token with symbol already exists" s
  (.ok { s with stats :=
    (maximum_supply.sym.code, createdStats env issuer maximum_supply) :: s.stats })))))

/-- `token::add_balance`: create the row on first credit, else checked `+=`.
The `ram_payer` attribute has no effect on the modelled state. -/
def add_balance (owner : Name) (value : Asset) (s : State) : RawResult :=
  match findAccount s owner value.sym.code with
  | none => .ok { s with accounts := ⟨owner, value⟩ :: s.accounts }
  | some r =>
    mexc (assetAdd r.bal value) s (fun nb => .ok (modifyAccount s owner value.sym.code nb))

/-- `token::sub_balance`. -/
def sub_balance (owner : Name) (value : Asset) (s : State) : RawResult :=
  mtch (findAccount s owner value.sym.code) "no balance object found" s (fun r =>
  chk (r.bal.amount ≥ value.amount) "overdrawn balance" s
  (mexc (assetSub r.bal value) s (fun nb => .ok (modifyAccount s owner value.sym.code nb))))

/-- The mutation tail of `token::issue` (lines 83-90 of the source): record
the new supply, averages and timestamp, then credit the issuer. -/
def issue_commit (env : Env) (issuer : Name) (quantity : Asset)
    (new_supply new_day_avg new_year_avg : Asset) (s : State) : RawResult :=
  add_balance issuer quantity
    (modifyStat s quantity.sym.code (fun c =>
      { c with supply := new_supply,
               last_update := env.now,
               avg_daily_inflation := new_day_avg,
               avg_yearly_inflation := new_year_avg }))

/-- `token::issue`.  The ppm inflation ratios are `int128_t` truncating
divisions by the prior supply converted to `uint64_t`; dividing by a zero
prior supply traps in the VM, aborting the action. -/
def issue (env : Env) (to_ : Name) (quantity : Asset) (memo : String) (s : State) : RawResult :=
  chk (env.validSym quantity.sym = true) "invalid symbol name" s
  (chk (memo.utf8ByteSize ≤ 256) "memo has more than 256 bytes" s
  (mtch (lookupStat s quantity.sym.code)
      "token with symbol does not exist, create token before issue" s (fun st =>
  chk (to_ = st.issuer) "tokens can only be issued to issuer account" s
  (chk (env.auth st.issuer = true) "missing required authority" s
  (chk (quantity.is_valid env) "invalid quantity" s
  (chk (0 < quantity.amount) "must issue positive quantity" s
  (chk (quantity.sym = st.supply.sym) "symbol precision mismatch" s
  (chk (quantity.amount ≤ st.max_supply.amount - st.supply.amount)
      "quantity exceeds available supply" s
  (mexc (calculate_avg (env.now - st.last_update) (60 * 60 * 24)
      st.avg_daily_inflation quantity) s (fun new_day_avg =>
  mexc (calculate_avg (env.now - st.last_update) (60 * 60 * 24 * 365)
      st.avg_yearly_inflation quantity) s (fun new_year_avg =>
  mexc (assetAdd st.supply quantity) s (fun new_supply =>
  if new_day_avg.amount > st.allowed_daily_inflation.amount then
    chk (st.supply.amount ≠ 0) "division by zero" s
    (chk (toU64 ((new_day_avg.amount * 1000000).tdiv st.supply.amount) <
        st.daily_inf_per_limit) "daily inflation reached" s
    (chk (toU64 ((new_year_avg.amount * 1000000).tdiv st.supply.amount) <
        st.yearly_inf_per_limit) "yearly inflation reached" s
    (issue_commit env st.issuer quantity new_supply new_day_avg new_year_avg s)))
  else issue_commit env st.issuer quantity new_supply new_day_avg new_year_avg s))))))))))))

/-- `token::update`. -/
def update (env : Env) (sym : Sym) (recall_ authorize : Bool) (authorizer : Name)
    (daily_inf_per_limit yearly_inf_per_limit : Nat) (allowed_daily_inflation : Asset)
    (s : State) : RawResult :=
  mtch (lookupStat s sym.code)
      "token with symbol does not exist, create token before issue" s (fun st =>
  chk (env.auth st.issuer = true) "missing required authority" s
  (chk (recall_ = true → st.recall_ = true) "cannot enable recall once disabled" s
  (chk (authorize = true → st.authorize = true) "cannot enable recall once disabled" s
  (chk (authorize = true → authorizer ≠ 0 → env.isAccount authorizer = true)
      "authorizer account does not exist" s
  (chk (authorize = false → authorizer = 0) "authorizer must be empty" s
  (chk (daily_inf_per_limit ≤ st.daily_inf_per_limit)
      "cannot raise daily inflation percent limit" s
  (chk (yearly_inf_per_limit ≤ st.yearly_inf_per_limit)
      "cannot raise yearly inflation percent limit" s
  (chk (allowed_daily_inflation.amount ≤ st.allowed_daily_inflation.amount)
      "cannot raise absolute daily inflation limit" s
  (.ok (modifyStat s sym.code (fun c =>
    { c with recall_ := recall_,
             authorize := authorize,
             authorizer := authorizer,
             daily_inf_per_limit := daily_inf_per_limit,
             yearly_inf_per_limit := yearly_inf_per_limit,
             allowed_daily_inflation := allowed_daily_inflation })))))))))))

/-- `token::retire`: the supply is decremented before the issuer's balance is
debited, so a failing `sub_balance` leaves a partially mutated state for the
host to roll back. -/
def retire (env : Env) (quantity : Asset) (memo : String) (s : State) : RawResult :=
  chk (env.validSym quantity.sym = true) "invalid symbol name" s
  (chk (memo.utf8ByteSize ≤ 256) "memo has more than 256 bytes" s
  (mtch (lookupStat s quantity.sym.code) "token with symbol does not exist" s (fun st =>
  chk (env.auth st.issuer = true) "missing required authority" s
  (chk (quantity.is_valid env) "invalid quantity" s
  (chk (0 < quantity.amount) "must retire positive quantity" s
  (chk (quantity.sym = st.supply.sym) "symbol precision mismatch" s
  (mexc (assetSub st.supply quantity) s (fun ns =>
  sub_balance st.issuer quantity
    (modifyStat s quantity.sym.code (fun c => { c with supply := ns }))))))))))

/-- `token::transfer`.  The `require_recipient` notifications and the inline
authorization action are outbound messages with no effect on the modelled
state. -/
def transfer (env : Env) (from_ to_ : Name) (quantity : Asset) (memo : String)
    (s : State) : RawResult :=
  chk (from_ ≠ to_) "cannot transfer to self" s
  (chk (env.auth from_ = true) "missing required authority" s
  (chk (env.isAccount to_ = true) "to account does not exist" s
  (mtch (lookupStat s quantity.sym.code) "unable to find key" s (fun st =>
  chk (quantity.is_valid env) "invalid quantity" s
  (chk (0 < quantity.amount) "must transfer positive quantity" s
  (chk (quantity.sym = st.supply.sym) "symbol precision mismatch" s
  (chk (memo.utf8ByteSize ≤ 256) "memo has more than 256 bytes" s
  (seqR (sub_balance from_ quantity s) (fun s1 => add_balance to_ quantity s1)))))))))

/-- `token::open`. -/
def open_ (env : Env) (owner : Name) (symbol : Sym) (ram_payer : Name)
    (s : State) : RawResult :=
  chk (env.auth ram_payer = true) "missing required authority" s
  (chk (env.isAccount owner = true) "owner account does not exist" s
  (mtch (lookupStat s symbol.code) "symbol does not exist" s (fun st =>
  chk (st.supply.sym = symbol) "symbol precision mismatch" s
  (match findAccount s owner symbol.code with
   | some _ => .ok s
   | none => .ok { s with accounts := ⟨owner, ⟨0, symbol⟩⟩ :: s.accounts }))))

/-- `token::close`. -/
def close (env : Env) (owner : Name) (symbol : Sym) (s : State) : RawResult :=
  chk (env.auth owner = true) "missing required authority" s
  (mtch (findAccount s owner symbol.code)
      "Balance row already deleted or never existed. Action won\x27t have any effect." s (fun r =>
  chk (r.bal.amount = 0) "Cannot close because the balance is not zero." s
  (.ok { s with accounts := s.accounts.eraseP (keyMatch owner symbol.code) })))

/-- The contract's action surface. -/
inductive Act where
  | create (issuer : Name) (maximum_supply : Asset)
  | issue (to_ : Name) (quantity : Asset) (memo : String)
  | update (sym : Sym) (recall_ authorize : Bool) (authorizer : Name)
      (daily_inf_per_limit yearly_inf_per_limit : Nat) (allowed_daily_inflation : Asset)
  | retire (quantity : Asset) (memo : String)
  | transfer (from_ to_ : Name) (quantity : Asset) (memo : String)
  | open_ (owner : Name) (symbol : Sym) (ram_payer : Name)
  | close (owner : Name) (symbol : Sym)

/-- Run one action intra-transaction. -/
def execRaw (env : Env) (a : Act) (s : State) : RawResult :=
  match a with
  | .create i m => create env i m s
  | .issue t q memo => issue env t q memo s
  | .update sym r au az d y al => update env sym r au az d y al s
  | .retire q memo => retire env q memo s
  | .transfer f t q memo => transfer env f t q memo s
  | .open_ o sym p => open_ env o sym p s
  | .close o sym => close env o sym s

/-- The host's committed transition: a failure rolls the whole transaction
back to the pre-call state. -/
def applyAction (env : Env) (a : Act) (s : State) : State :=
  match execRaw env a s with
  | .ok s' => s'
  | .fail _ _ => s

/-- States reachable from the empty deployment state by committed actions
(each step may run under a different environment). -/
inductive Reachable : State → Prop where
  | init : Reachable ⟨[], []⟩
  | step (env : Env) (a : Act) (s s' : State) :
      Reachable s → execRaw env a s = .ok s' → Reachable s'

/-- Total balance booked for symbol code `c` over all accounts. -/
def sumBal (l : List BalRow) (c : Nat) : Int :=
  (l.map (fun r => if r.bal.sym.code = c then r.bal.amount else 0)).sum

/-- Table well-formedness: at most one `accounts` row per (owner, code) key. -/
def NodupKeys (l : List BalRow) : Prop :=
  l.Pairwise (fun a b => ¬(a.owner = b.owner ∧ a.bal.sym.code = b.bal.sym.code))

instance {l : List BalRow} : Decidable (NodupKeys l) := by
  unfold NodupKeys; infer_instance

/-- Table well-formedness: at most one `stats` row per symbol code. -/
def StatsNodup (l : List (Nat × CurrencyStats)) : Prop :=
  l.Pairwise (fun a b => a.1 ≠ b.1)

/-- Every balance row is for a symbol that has a `stats` row. -/
def Closed (s : State) : Prop :=
  ∀ r ∈ s.accounts, (lookupStat s r.bal.sym.code).isSome = true

/-- Ledger conservation: each symbol's recorded supply is the sum of all
balances booked for it. -/
def Conserved (s : State) : Prop :=
  ∀ c st, lookupStat s c = some st → st.supply.amount = sumBal s.accounts c

/-- The inductive invariant carried through every committed action. -/
def Inv (s : State) : Prop :=
  Conserved s ∧ Closed s ∧ NodupKeys s.accounts ∧ StatsNodup s.stats

theorem chk_ok_iff {c : Prop} [Decidable c] {msg s k s'} :
    chk c msg s k = .ok s' ↔ c ∧ k = .ok s' := by
  unfold chk
  split_ifs with hc <;> simp [hc]

theorem mtch_ok_iff {α : Type} {x : Option α} {msg s k s'} :
    mtch x msg s k = .ok s' ↔ ∃ a, x = some a ∧ k a = .ok s' := by
  cases x <;> simp [mtch]

theorem mexc_ok_iff {x : Except String Asset} {s k s'} :
    mexc x s k = .ok s' ↔ ∃ a, x = .ok a ∧ k a = .ok s' := by
  cases x <;> simp [mexc]

theorem seqR_ok_iff {x k s'} :
    seqR x k = .ok s' ↔ ∃ s1, x = .ok s1 ∧ k s1 = .ok s' := by
  cases x <;> simp [seqR]

theorem isOk_iff_exists {x : RawResult} : x.isOk = true ↔ ∃ s', x = .ok s' := by
  cases x <;> simp [RawResult.isOk]

theorem keyMatch_iff {o c r} : keyMatch o c r = true ↔ r.owner = o ∧ r.bal.sym.code = c := by
  simp [keyMatch]

theorem sumBal_nil {c} : sumBal [] c = 0 := rfl

theorem sumBal_cons {r l c} :
    sumBal (r :: l) c = (if r.bal.sym.code = c then r.bal.amount else 0) + sumBal l c := by
  simp [sumBal]

theorem sumBal_eq_zero {l c} (h : ∀ r ∈ l, r.bal.sym.code ≠ c) : sumBal l c = 0 := by
  induction l with
  | nil => rfl
  | cons r t ih =>
    rw [sumBal_cons, if_neg (h r (by simp)), ih (fun x hx => h x (by simp [hx]))]
    simp

theorem findStat_mem {l c st} (h : findStat l c = some st) : (c, st) ∈ l := by
  unfold findStat at h
  cases hf : l.find? (fun p => p.1 == c) with
  | none => rw [hf] at h; cases h
  | some p =>
    rw [hf] at h
    have hm := List.mem_of_find?_eq_some hf
    have hp := List.find?_some hf
    simp at h hp
    have : (c, st) = p := by cases p; simp_all
    rw [this]; exact hm

theorem findStat_cons {c0 st0 l c} :
    findStat ((c0, st0) :: l) c = if c0 = c then some st0 else findStat l c := by
  by_cases h : c0 = c <;> simp [findStat, List.find?_cons, h]

theorem findStat_modStats (l : List (Nat × CurrencyStats)) (c c' : Nat)
    (f : CurrencyStats → CurrencyStats) :
    findStat (modStats l c f) c' =
      (l.find? (fun p => p.1 == c')).map (fun p => if p.1 = c then f p.2 else p.2) := by
  unfold findStat modStats
  rw [List.find?_map]
  have hpred : ((fun p : Nat × CurrencyStats => p.1 == c') ∘
      (fun p => if p.1 = c then (p.1, f p.2) else p)) = fun p => p.1 == c' := by
    funext p
    by_cases hp : p.1 = c <;> simp [hp]
  rw [hpred, Option.map_map]
  cases l.find? (fun p => p.1 == c') with
  | none => rfl
  | some p =>
    by_cases hp : p.1 = c <;> simp [hp]

theorem findStat_modStats_self {l c f} :
    findStat (modStats l c f) c = (findStat l c).map f := by
  rw [findStat_modStats]
  unfold findStat
  cases hf : l.find? (fun p => p.1 == c) with
  | none => rfl
  | some p =>
    have hp := List.find?_some hf
    simp at hp
    simp [hp]

theorem findStat_modStats_ne {l c c' f} (h : c' ≠ c) :
    findStat (modStats l c f) c' = findStat l c' := by
  rw [findStat_modStats]
  unfold findStat
  cases hf : l.find? (fun p => p.1 == c') with
  | none => rfl
  | some p =>
    have hp := List.find?_some hf
    simp at hp
    simp [hp, h]

theorem statsNodup_modStats {l c f} (h : StatsNodup l) : StatsNodup (modStats l c f) := by
  unfold StatsNodup modStats at *
  rw [List.pairwise_map]
  refine h.imp ?_
  intro a b hab
  have ka : (if a.1 = c then (a.1, f a.2) else a).1 = a.1 := by
    by_cases h1 : a.1 = c <;> simp [h1]
  have kb : (if b.1 = c then (b.1, f b.2) else b).1 = b.1 := by
    by_cases h1 : b.1 = c <;> simp [h1]
  rw [ka, kb]
  exact hab

theorem modAcc_cons {a t o c nb} :
    modAcc (a :: t) o c nb =
      (if keyMatch o c a then { a with bal := nb } else a) :: modAcc t o c nb := rfl

theorem modAcc_not_found {l o c nb} (h : ∀ r ∈ l, keyMatch o c r = false) :
    modAcc l o c nb = l := by
  induction l with
  | nil => rfl
  | cons a t ih =>
    have h0 := h a (List.mem_cons_self a t)
    rw [modAcc_cons, h0]
    simp only [Bool.false_eq_true, ite_false]
    rw [ih (fun x hx => h x (List.mem_cons_of_mem a hx))]

theorem pairwise_head_no_other {a : BalRow} {t : List BalRow} {o c}
    (hhead : ∀ b ∈ t, ¬(a.owner = b.owner ∧ a.bal.sym.code = b.bal.sym.code))
    (hk : keyMatch o c a = true) : ∀ b ∈ t, keyMatch o c b = false := by
  intro b hb
  rcases keyMatch_iff.mp hk with ⟨hao, hac⟩
  by_contra hcon
  rw [Bool.not_eq_false] at hcon
  rcases keyMatch_iff.mp hcon with ⟨hbo, hbc⟩
  exact hhead b hb ⟨by rw [hao, hbo], by rw [hac, hbc]⟩

theorem sumBal_modAcc {l : List BalRow} {o c nb r c'} (hnd : NodupKeys l)
    (hf : l.find? (keyMatch o c) = some r) (hsym : nb.sym.code = c) :
    sumBal (modAcc l o c nb) c' =
      sumBal l c' + (if c = c' then nb.amount - r.bal.amount else 0) := by
  induction l with
  | nil => cases hf
  | cons a t ih =>
    cases hnd with
    | cons hhead htail =>
      by_cases hk : keyMatch o c a = true
      · rw [List.find?_cons_of_pos _ hk] at hf
        have hra : r = a := by cases hf; rfl
        subst hra
        have hnone := pairwise_head_no_other hhead hk
        have hcode : r.bal.sym.code = c := (keyMatch_iff.mp hk).2
        rw [modAcc_cons, if_pos hk, modAcc_not_found hnone, sumBal_cons, sumBal_cons]
        by_cases hc : c = c' <;> simp [hsym, hcode, hc] <;> ring
      · rw [List.find?_cons_of_neg _ hk] at hf
        rw [modAcc_cons, if_neg hk, sumBal_cons, sumBal_cons, ih htail hf]
        ring

theorem nodup_modAcc {l o c nb} (hsym : nb.sym.code = c) (h : NodupKeys l) :
    NodupKeys (modAcc l o c nb) := by
  have hkey : ∀ x : BalRow,
      (if keyMatch o c x then { x with bal := nb } else x).owner = x.owner ∧
      (if keyMatch o c x then { x with bal := nb } else x).bal.sym.code = x.bal.sym.code := by
    intro x
    by_cases hx : keyMatch o c x = true
    · constructor
      · simp [hx]
      · simp only [hx, ite_true]
        rw [hsym]
        exact ((keyMatch_iff.mp hx).2).symm
    · simp [hx]
  unfold NodupKeys modAcc at *
  rw [List.pairwise_map]
  refine h.imp ?_
  intro a b hab
  rw [(hkey a).1, (hkey a).2, (hkey b).1, (hkey b).2]
  exact hab

theorem codes_modAcc {l o c nb r'} (hsym : nb.sym.code = c) (h : r' ∈ modAcc l o c nb) :
    ∃ r ∈ l, r'.bal.sym.code = r.bal.sym.code := by
  unfold modAcc at h
  rcases List.mem_map.mp h with ⟨x, hx, hmap⟩
  refine ⟨x, hx, ?_⟩
  by_cases hk : keyMatch o c x = true
  · rw [← hmap]
    simp only [hk, ite_true]
    rw [hsym]
    exact ((keyMatch_iff.mp hk).2).symm
  · rw [← hmap]; simp [hk]

theorem assetAdd_ok {a b x : Asset} (h : assetAdd a b = .ok x) :
    a.sym = b.sym ∧ x = ⟨a.amount + b.amount, a.sym⟩ ∧
      -maxAmount ≤ a.amount + b.amount ∧ a.amount + b.amount ≤ maxAmount := by
  unfold assetAdd at h
  split_ifs at h with h1 h2 h3
  · cases h
    exact ⟨h1, rfl, le_of_not_lt h2, le_of_not_lt h3⟩

theorem assetSub_ok {a b x : Asset} (h : assetSub a b = .ok x) :
    a.sym = b.sym ∧ x = ⟨a.amount - b.amount, a.sym⟩ ∧
      -maxAmount ≤ a.amount - b.amount ∧ a.amount - b.amount ≤ maxAmount := by
  unfold assetSub at h
  split_ifs at h with h1 h2 h3
  · cases h
    exact ⟨h1, rfl, le_of_not_lt h2, le_of_not_lt h3⟩

theorem add_balance_ok_inv {o v s s'} (h : add_balance o v s = .ok s') :
    (findAccount s o v.sym.code = none ∧
        s' = { s with accounts := ⟨o, v⟩ :: s.accounts }) ∨
    (∃ r nb, findAccount s o v.sym.code = some r ∧ assetAdd r.bal v = .ok nb ∧
        s' = modifyAccount s o v.sym.code nb) := by
  unfold add_balance at h
  cases hf : findAccount s o v.sym.code with
  | none =>
    rw [hf] at h
    cases h
    exact Or.inl ⟨rfl, rfl⟩
  | some r =>
    rw [hf] at h
    rw [show (mexc (assetAdd r.bal v) s fun nb =>
        RawResult.ok (modifyAccount s o v.sym.code nb)) = .ok s' ↔ _ from mexc_ok_iff] at h
    obtain ⟨nb, hnb, hs'⟩ := h
    cases hs'
    exact Or.inr ⟨r, nb, rfl, hnb, rfl⟩

theorem sub_balance_ok_inv {o v s s'} (h : sub_balance o v s = .ok s') :
    ∃ r nb, findAccount s o v.sym.code = some r ∧ v.amount ≤ r.bal.amount ∧
      assetSub r.bal v = .ok nb ∧ s' = modifyAccount s o v.sym.code nb := by
  unfold sub_balance at h
  rw [mtch_ok_iff] at h
  obtain ⟨r, hr, h⟩ := h
  rw [chk_ok_iff] at h
  obtain ⟨hge, h⟩ := h
  rw [mexc_ok_iff] at h
  obtain ⟨nb, hnb, hs'⟩ := h
  cases hs'
  exact ⟨r, nb, hr, hge, hnb, rfl⟩

theorem sumBal_eraseP_zero {l : List BalRow} {p r c'} (hf : l.find? p = some r)
    (hz : r.bal.amount = 0) : sumBal (l.eraseP p) c' = sumBal l c' := by
  induction l with
  | nil => cases hf
  | cons a t ih =>
    by_cases hk : p a = true
    · rw [List.find?_cons_of_pos _ hk] at hf
      have hra : r = a := by cases hf; rfl
      rw [List.eraseP_cons_of_pos hk, sumBal_cons, ← hra, hz]
      simp
    · rw [List.find?_cons_of_neg _ hk] at hf
      rw [List.eraseP_cons_of_neg (by simp [hk]), sumBal_cons, sumBal_cons, ih hf]

theorem findStat_none {l c} (h : findStat l c = none) : ∀ p ∈ l, p.1 ≠ c := by
  intro p hp hpc
  unfold findStat at h
  cases hf : l.find? (fun p => p.1 == c) with
  | some q => rw [hf] at h; cases h
  | none =>
    have := List.find?_eq_none.mp hf p hp
    simp [hpc] at this

theorem modifyStat_accounts {s c f} : (modifyStat s c f).accounts = s.accounts := rfl

theorem modifyStat_stats {s c f} : (modifyStat s c f).stats = modStats s.stats c f := rfl

theorem modifyAccount_stats {s o c nb} : (modifyAccount s o c nb).stats = s.stats := rfl

theorem add_balance_effect {o : Name} {v : Asset} {s s'} (hnd : NodupKeys s.accounts)
    (h : add_balance o v s = .ok s') :
    s'.stats = s.stats ∧ NodupKeys s'.accounts ∧
    (∀ c', sumBal s'.accounts c' =
        sumBal s.accounts c' + (if v.sym.code = c' then v.amount else 0)) ∧
    (∀ r' ∈ s'.accounts, r'.bal.sym.code = v.sym.code ∨
        ∃ r ∈ s.accounts, r'.bal.sym.code = r.bal.sym.code) := by
  rcases add_balance_ok_inv h with ⟨hf, rfl⟩ | ⟨r, nb, hf, hadd, rfl⟩
  · refine ⟨rfl, ?_, ?_, ?_⟩
    · refine List.Pairwise.cons ?_ hnd
      intro b hb hcon
      have hk : keyMatch o v.sym.code b = true :=
        keyMatch_iff.mpr ⟨hcon.1.symm, hcon.2.symm⟩
      exact List.find?_eq_none.mp hf b hb hk
    · intro c'
      rw [show ({ s with accounts := ⟨o, v⟩ :: s.accounts } : State).accounts =
        ⟨o, v⟩ :: s.accounts from rfl, sumBal_cons]
      exact Int.add_comm _ _
    · intro r' hr'
      rcases List.mem_cons.mp hr' with h1 | h1
      · left; rw [h1]
      · right; exact ⟨r', h1, rfl⟩
  · obtain ⟨hsymeq, hnb, _, _⟩ := assetAdd_ok hadd
    have hnbsym : nb.sym.code = v.sym.code := by rw [hnb, hsymeq]
    have hkeyr : keyMatch o v.sym.code r = true := List.find?_some hf
    have hrcode : r.bal.sym.code = v.sym.code := (keyMatch_iff.mp hkeyr).2
    refine ⟨rfl, nodup_modAcc hnbsym hnd, ?_, ?_⟩
    · intro c'
      rw [show (modifyAccount s o v.sym.code nb).accounts =
        modAcc s.accounts o v.sym.code nb from rfl, sumBal_modAcc hnd hf hnbsym]
      congr 1
      by_cases hc : v.sym.code = c' <;> simp only [hc, ite_true, ite_false, hnb] <;> ring
    · intro r' hr'
      rcases codes_modAcc hnbsym hr' with ⟨r0, hr0, hcode⟩
      right; exact ⟨r0, hr0, hcode⟩

theorem sub_balance_effect {o : Name} {v : Asset} {s s'} (hnd : NodupKeys s.accounts)
    (h : sub_balance o v s = .ok s') :
    s'.stats = s.stats ∧ NodupKeys s'.accounts ∧
    (∀ c', sumBal s'.accounts c' =
        sumBal s.accounts c' - (if v.sym.code = c' then v.amount else 0)) ∧
    (∀ r' ∈ s'.accounts, ∃ r ∈ s.accounts, r'.bal.sym.code = r.bal.sym.code) := by
  obtain ⟨r, nb, hf, hge, hsub, rfl⟩ := sub_balance_ok_inv h
  obtain ⟨hsymeq, hnb, _, _⟩ := assetSub_ok hsub
  have hnbsym : nb.sym.code = v.sym.code := by rw [hnb, hsymeq]
  refine ⟨rfl, nodup_modAcc hnbsym hnd, ?_, ?_⟩
  · intro c'
    rw [show (modifyAccount s o v.sym.code nb).accounts =
      modAcc s.accounts o v.sym.code nb from rfl, sumBal_modAcc hnd hf hnbsym]
    by_cases hc : v.sym.code = c' <;> simp only [hc, ite_true, ite_false, hnb] <;> ring
  · intro r' hr'
    rcases codes_modAcc hnbsym hr' with ⟨r0, hr0, hcode⟩
    exact ⟨r0, hr0, hcode⟩

theorem lookupStat_modifyStat_self {s c f} :
    lookupStat (modifyStat s c f) c = (lookupStat s c).map f := findStat_modStats_self

theorem lookupStat_modifyStat_ne {s c c' f} (h : c' ≠ c) :
    lookupStat (modifyStat s c f) c' = lookupStat s c' := findStat_modStats_ne h

theorem sumBal_modifyStat {s c f c'} :
    sumBal (modifyStat s c f).accounts c' = sumBal s.accounts c' := rfl

theorem statsNodup_modifyStat {s c f} (h : StatsNodup s.stats) :
    StatsNodup (modifyStat s c f).stats := by
  show StatsNodup (modStats s.stats c f)
  exact statsNodup_modStats h

theorem lookupStat_congr {s1 s2 : State} {c} (h : s1.stats = s2.stats) :
    lookupStat s1 c = lookupStat s2 c := by
  unfold lookupStat
  rw [h]

theorem inv_empty : Inv ⟨[], []⟩ := by
  refine ⟨?_, ?_, List.Pairwise.nil, List.Pairwise.nil⟩
  · intro c st h
    simp [lookupStat, findStat] at h
  · intro r hr
    cases hr

theorem conserved_modifyStat {s c f} (hsup : ∀ st, (f st).supply.amount = st.supply.amount)
    (hCon : Conserved s) : Conserved (modifyStat s c f) := by
  intro c' st' hlook
  rw [show lookupStat (modifyStat s c f) c' = findStat (modStats s.stats c f) c' from rfl] at hlook
  by_cases hc : c' = c
  · subst hc
    rw [findStat_modStats_self] at hlook
    cases hst : findStat s.stats c' with
    | none => rw [hst] at hlook; cases hlook
    | some st0 =>
      rw [hst] at hlook
      simp at hlook
      rw [← hlook, hsup st0]
      exact hCon c' st0 hst
  · rw [findStat_modStats_ne hc] at hlook
    exact hCon c' st' hlook

theorem closed_modifyStat {s c f} (hClo : Closed s) : Closed (modifyStat s c f) := by
  intro r hr
  have hsome := hClo r hr
  by_cases hc : r.bal.sym.code = c
  · rw [show lookupStat (modifyStat s c f) r.bal.sym.code
      = findStat (modStats s.stats c f) r.bal.sym.code from rfl, hc, findStat_modStats_self]
    rw [show lookupStat s r.bal.sym.code = findStat s.stats r.bal.sym.code from rfl, hc] at hsome
    cases hx : findStat s.stats c
    · rw [hx] at hsome; cases hsome
    · simp
  · rw [show lookupStat (modifyStat s c f) r.bal.sym.code
      = findStat (modStats s.stats c f) r.bal.sym.code from rfl, findStat_modStats_ne hc]
    exact hsome

theorem inv_create {env i m s s'} (hInv : Inv s) (h : create env i m s = .ok s') : Inv s' := by
  obtain ⟨hCon, hClo, hNk, hSn⟩ := hInv
  simp only [create, chk_ok_iff, RawResult.ok.injEq] at h
  obtain ⟨-, -, -, -, hnone, hs'⟩ := h
  subst hs'
  refine ⟨?_, ?_, hNk, ?_⟩
  · intro c' st' hlook
    rw [show lookupStat { s with stats := (m.sym.code, createdStats env i m) :: s.stats } c'
      = findStat ((m.sym.code, createdStats env i m) :: s.stats) c' from rfl,
      findStat_cons] at hlook
    by_cases hc : m.sym.code = c'
    · rw [if_pos hc] at hlook
      cases hlook
      have hz : sumBal s.accounts c' = 0 := by
        apply sumBal_eq_zero
        intro r hr hrc
        have hsome := hClo r hr
        rw [hrc, ← hc, hnone] at hsome
        cases hsome
      rw [show ({ s with stats := (m.sym.code, createdStats env i m) :: s.stats } : State).accounts
        = s.accounts from rfl, hz]
      rfl
    · rw [if_neg hc] at hlook
      exact hCon c' st' hlook
  · intro r hr
    have hsome := hClo r hr
    by_cases hc : m.sym.code = r.bal.sym.code
    · rw [show lookupStat { s with stats := (m.sym.code, createdStats env i m) :: s.stats }
        r.bal.sym.code
        = findStat ((m.sym.code, createdStats env i m) :: s.stats) r.bal.sym.code from rfl,
        findStat_cons, if_pos hc]
      rfl
    · rw [show lookupStat { s with stats := (m.sym.code, createdStats env i m) :: s.stats }
        r.bal.sym.code
        = findStat ((m.sym.code, createdStats env i m) :: s.stats) r.bal.sym.code from rfl,
        findStat_cons, if_neg hc]
      exact hsome
  · refine List.Pairwise.cons ?_ hSn
    intro p hp
    exact Ne.symm (findStat_none hnone p hp)

theorem inv_update {env sym r au az d y al s s'} (hInv : Inv s)
    (h : update env sym r au az d y al s = .ok s') : Inv s' := by
  obtain ⟨hCon, hClo, hNk, hSn⟩ := hInv
  simp only [update, mtch_ok_iff, chk_ok_iff, RawResult.ok.injEq] at h
  obtain ⟨st, hst, -, -, -, -, -, -, -, -, hs'⟩ := h
  subst hs'
  refine ⟨conserved_modifyStat (fun st => rfl) hCon, closed_modifyStat hClo, hNk, ?_⟩
  exact statsNodup_modifyStat hSn

theorem inv_open {env o sym p s s'} (hInv : Inv s) (h : open_ env o sym p s = .ok s') :
    Inv s' := by
  obtain ⟨hCon, hClo, hNk, hSn⟩ := hInv
  simp only [open_, chk_ok_iff, mtch_ok_iff] at h
  obtain ⟨-, -, st, hst, -, h⟩ := h
  cases hf : findAccount s o sym.code with
  | some r =>
    rw [hf] at h
    cases h
    exact ⟨hCon, hClo, hNk, hSn⟩
  | none =>
    rw [hf] at h
    cases h
    refine ⟨?_, ?_, ?_, hSn⟩
    · intro c' st' hlook
      have := hCon c' st' hlook
      rw [show ({ s with accounts := ⟨o, ⟨0, sym⟩⟩ :: s.accounts } : State).accounts
        = ⟨o, ⟨0, sym⟩⟩ :: s.accounts from rfl, sumBal_cons]
      rw [this]
      have hz : (if (BalRow.mk o ⟨0, sym⟩).bal.sym.code = c'
          then (BalRow.mk o ⟨0, sym⟩).bal.amount else 0) = 0 := by
        dsimp only
        split <;> rfl
      rw [hz, zero_add]
    · intro r hr
      rcases List.mem_cons.mp hr with h1 | h1
      · rw [h1,
          show lookupStat { s with accounts := ⟨o, ⟨0, sym⟩⟩ :: s.accounts }
            (BalRow.mk o ⟨0, sym⟩).bal.sym.code = lookupStat s sym.code from rfl, hst]
        rfl
      · exact hClo r h1
    · refine List.Pairwise.cons ?_ hNk
      intro b hb hcon
      have hk : keyMatch o sym.code b = true := keyMatch_iff.mpr ⟨hcon.1.symm, hcon.2.symm⟩
      exact List.find?_eq_none.mp hf b hb hk

theorem inv_close {env o sym s s'} (hInv : Inv s) (h : close env o sym s = .ok s') : Inv s' := by
  obtain ⟨hCon, hClo, hNk, hSn⟩ := hInv
  simp only [close, chk_ok_iff, mtch_ok_iff, RawResult.ok.injEq] at h
  obtain ⟨-, r, hf, hz, hs'⟩ := h
  subst hs'
  refine ⟨?_, ?_, ?_, hSn⟩
  · intro c' st' hlook
    have := hCon c' st' hlook
    rw [show ({ s with accounts := s.accounts.eraseP (keyMatch o sym.code) } : State).accounts
      = s.accounts.eraseP (keyMatch o sym.code) from rfl, sumBal_eraseP_zero hf hz]
    exact this
  · intro r' hr'
    exact hClo r' ((List.eraseP_sublist _).subset hr')
  · exact List.Pairwise.sublist (List.eraseP_sublist _) hNk

theorem issue_ok_inv {env t q memo s s'} (h : issue env t q memo s = .ok s') :
    ∃ st nda nya ns,
      lookupStat s q.sym.code = some st ∧
      q.sym = st.supply.sym ∧
      0 < q.amount ∧
      q.amount ≤ st.max_supply.amount - st.supply.amount ∧
      assetAdd st.supply q = .ok ns ∧
      issue_commit env st.issuer q ns nda nya s = .ok s' := by
  simp only [issue, chk_ok_iff, mtch_ok_iff, mexc_ok_iff] at h
  obtain ⟨-, -, st, hst, -, -, -, hpos, hsym, hle, nda, -, nya, -, ns, hns, htail⟩ := h
  refine ⟨st, nda, nya, ns, hst, hsym, hpos, hle, hns, ?_⟩
  by_cases hgt : nda.amount > st.allowed_daily_inflation.amount
  · rw [if_pos hgt] at htail
    simp only [chk_ok_iff] at htail
    exact htail.2.2.2
  · rw [if_neg hgt] at htail
    exact htail

theorem inv_issue {env t q memo s s'} (hInv : Inv s) (h : issue env t q memo s = .ok s') :
    Inv s' := by
  obtain ⟨hCon, hClo, hNk, hSn⟩ := hInv
  obtain ⟨st, nda, nya, ns, hst, hsym, -, -, hns, hcommit⟩ := issue_ok_inv h
  obtain ⟨hsymeq, hnseq, -, -⟩ := assetAdd_ok hns
  unfold issue_commit at hcommit
  have hnd1 : NodupKeys (modifyStat s q.sym.code (fun c =>
    { c with supply := ns, last_update := env.now,
             avg_daily_inflation := nda, avg_yearly_inflation := nya })).accounts := hNk
  obtain ⟨hstats, hNk2, hsum, hcodes⟩ := add_balance_effect hnd1 hcommit
  refine ⟨?_, ?_, hNk2, ?_⟩
  · intro c' st' hlook
    rw [lookupStat_congr hstats] at hlook
    rw [hsum c', sumBal_modifyStat]
    by_cases hc : c' = q.sym.code
    · subst hc
      rw [lookupStat_modifyStat_self, hst] at hlook
      simp at hlook
      rw [if_pos rfl, ← hCon q.sym.code st hst, ← hlook]
      simp [hnseq]
    · rw [lookupStat_modifyStat_ne hc] at hlook
      rw [if_neg (fun hh => hc hh.symm), add_zero]
      exact hCon c' st' hlook
  · intro r' hr'
    rcases hcodes r' hr' with hcode | ⟨r0, hr0, hcode⟩
    · rw [lookupStat_congr hstats, hcode, lookupStat_modifyStat_self, hst]
      rfl
    · have hsome := hClo r0 hr0
      rw [lookupStat_congr hstats, hcode]
      by_cases hc : r0.bal.sym.code = q.sym.code
      · rw [hc, lookupStat_modifyStat_self, hst]
        rfl
      · rw [lookupStat_modifyStat_ne hc]
        exact hsome
  · rw [hstats]
    exact statsNodup_modifyStat hSn

theorem inv_retire {env q memo s s'} (hInv : Inv s) (h : retire env q memo s = .ok s') :
    Inv s' := by
  obtain ⟨hCon, hClo, hNk, hSn⟩ := hInv
  simp only [retire, chk_ok_iff, mtch_ok_iff, mexc_ok_iff] at h
  obtain ⟨-, -, st, hst, -, -, -, hsym, ns, hns, hsub⟩ := h
  obtain ⟨hsymeq, hnseq, -, -⟩ := assetSub_ok hns
  have hnd1 : NodupKeys (modifyStat s q.sym.code
    (fun c => { c with supply := ns })).accounts := hNk
  obtain ⟨hstats, hNk2, hsum, hcodes⟩ := sub_balance_effect hnd1 hsub
  refine ⟨?_, ?_, hNk2, ?_⟩
  · intro c' st' hlook
    rw [lookupStat_congr hstats] at hlook
    rw [hsum c', sumBal_modifyStat]
    by_cases hc : c' = q.sym.code
    · subst hc
      rw [lookupStat_modifyStat_self, hst] at hlook
      simp at hlook
      rw [if_pos rfl, ← hCon q.sym.code st hst, ← hlook]
      simp [hnseq]
    · rw [lookupStat_modifyStat_ne hc] at hlook
      rw [if_neg (fun hh => hc hh.symm), sub_zero]
      exact hCon c' st' hlook
  · intro r' hr'
    rcases hcodes r' hr' with ⟨r0, hr0, hcode⟩
    have hsome := hClo r0 hr0
    rw [lookupStat_congr hstats, hcode]
    by_cases hc : r0.bal.sym.code = q.sym.code
    · rw [hc, lookupStat_modifyStat_self, hst]
      rfl
    · rw [lookupStat_modifyStat_ne hc]
      exact hsome
  · rw [hstats]
    exact statsNodup_modifyStat hSn

theorem inv_transfer {env f t q memo s s'} (hInv : Inv s)
    (h : transfer env f t q memo s = .ok s') : Inv s' := by
  obtain ⟨hCon, hClo, hNk, hSn⟩ := hInv
  simp only [transfer, chk_ok_iff, mtch_ok_iff, seqR_ok_iff] at h
  obtain ⟨-, -, -, st, hst, -, -, -, -, s1, hsub, hadd⟩ := h
  obtain ⟨hstats1, hNk1, hsum1, hcodes1⟩ := sub_balance_effect hNk hsub
  obtain ⟨hstats2, hNk2, hsum2, hcodes2⟩ := add_balance_effect hNk1 hadd
  have hstats : s'.stats = s.stats := hstats2.trans hstats1
  refine ⟨?_, ?_, hNk2, ?_⟩
  · intro c' st' hlook
    rw [lookupStat_congr hstats] at hlook
    rw [hsum2 c', hsum1 c']
    have := hCon c' st' hlook
    rw [this]
    ring
  · intro r' hr'
    rcases hcodes2 r' hr' with hcode | ⟨r0, hr0, hcode⟩
    · rw [lookupStat_congr hstats, hcode, hst]
      rfl
    · rcases hcodes1 r0 hr0 with ⟨r1, hr1, hcode1⟩
      have hsome := hClo r1 hr1
      rw [lookupStat_congr hstats, hcode, hcode1]
      exact hsome
  · rw [hstats]
    exact hSn

theorem inv_step {env a s s'} (hInv : Inv s) (h : execRaw env a s = .ok s') : Inv s' := by
  cases a <;> simp only [execRaw] at h
  exacts [inv_create hInv h, inv_issue hInv h, inv_update hInv h, inv_retire hInv h,
    inv_transfer hInv h, inv_open hInv h, inv_close hInv h]

theorem reachable_inv {s} (h : Reachable s) : Inv s := by
  induction h with
  | init => exact inv_empty
  | step env a s s' hr hok ih => exact inv_step ih hok

theorem chk_fail_inv {c : Prop} [Decidable c] {msg s k m sp}
    (h : chk c msg s k = .fail m sp) :
    (¬c ∧ m = msg ∧ sp = s) ∨ (c ∧ k = .fail m sp) := by
  unfold chk at h
  split_ifs at h with hc
  · exact Or.inr ⟨hc, h⟩
  · cases h
    exact Or.inl ⟨hc, rfl, rfl⟩

theorem mtch_fail_inv {α : Type} {x : Option α} {msg s k m sp}
    (h : mtch x msg s k = .fail m sp) :
    (x = none ∧ m = msg ∧ sp = s) ∨ (∃ a, x = some a ∧ k a = .fail m sp) := by
  cases x with
  | none =>
    cases h
    exact Or.inl ⟨rfl, rfl, rfl⟩
  | some a => exact Or.inr ⟨a, rfl, h⟩

theorem mexc_fail_inv {x : Except String Asset} {s k m sp}
    (h : mexc x s k = .fail m sp) :
    (x = .error m ∧ sp = s) ∨ (∃ a, x = .ok a ∧ k a = .fail m sp) := by
  cases x with
  | error e =>
    cases h
    exact Or.inl ⟨rfl, rfl⟩
  | ok a => exact Or.inr ⟨a, rfl, h⟩

theorem assetAdd_error_msg {a b : Asset} {e} (h : assetAdd a b = .error e) :
    e = "addition underflow" ∨ e = "addition overflow" ∨
      e = "attempt to add asset with different symbol" := by
  unfold assetAdd at h
  split_ifs at h <;> cases h
  · exact Or.inl rfl
  · exact Or.inr (Or.inl rfl)
  · exact Or.inr (Or.inr rfl)

theorem calculate_avg_error_msg {d w : Nat} {a n : Asset} {e}
    (h : calculate_avg d w a n = .error e) :
    e = "addition underflow" ∨ e = "addition overflow" ∨
      e = "attempt to add asset with different symbol" := by
  simp only [calculate_avg] at h
  exact assetAdd_error_msg h

theorem add_balance_fail_msg {o v s m sp} (h : add_balance o v s = .fail m sp) :
    m = "addition underflow" ∨ m = "addition overflow" ∨
      m = "attempt to add asset with different symbol" := by
  unfold add_balance at h
  cases hf : findAccount s o v.sym.code with
  | none => rw [hf] at h; cases h
  | some r =>
    rw [hf] at h
    rcases mexc_fail_inv h with ⟨he, -⟩ | ⟨a, -, hk⟩
    · exact assetAdd_error_msg he
    · cases hk

theorem sub_balance_stats {o v s s'} (h : sub_balance o v s = .ok s') :
    s'.stats = s.stats := by
  obtain ⟨r, nb, -, -, -, rfl⟩ := sub_balance_ok_inv h
  rfl

theorem add_balance_stats {o v s s'} (h : add_balance o v s = .ok s') :
    s'.stats = s.stats := by
  rcases add_balance_ok_inv h with ⟨-, rfl⟩ | ⟨r, nb, -, -, rfl⟩ <;> rfl

theorem lookup_modifyStat_inv {s c0 c f st1 st2} (h1 : lookupStat s c = some st1)
    (h2 : lookupStat (modifyStat s c0 f) c = some st2) :
    (c = c0 ∧ st2 = f st1) ∨ (c ≠ c0 ∧ st2 = st1) := by
  by_cases hc : c = c0
  · subst hc
    rw [lookupStat_modifyStat_self, h1] at h2
    simp at h2
    exact Or.inl ⟨rfl, h2.symm⟩
  · rw [lookupStat_modifyStat_ne hc, h1] at h2
    injection h2 with h2
    exact Or.inr ⟨hc, h2.symm⟩

theorem update_ok_inv {env sym r au az d y al s s'}
    (h : update env sym r au az d y al s = .ok s') :
    ∃ st, lookupStat s sym.code = some st ∧ env.auth st.issuer = true ∧
      (r = true → st.recall_ = true) ∧ (au = true → st.authorize = true) ∧
      (au = true → az ≠ 0 → env.isAccount az = true) ∧ (au = false → az = 0) ∧
      d ≤ st.daily_inf_per_limit ∧ y ≤ st.yearly_inf_per_limit ∧
      al.amount ≤ st.allowed_daily_inflation.amount ∧
      s' = modifyStat s sym.code (fun c =>
        { c with recall_ := r,
                 authorize := au,
                 authorizer := az,
                 daily_inf_per_limit := d,
                 yearly_inf_per_limit := y,
                 allowed_daily_inflation := al }) := by
  simp only [update, mtch_ok_iff, chk_ok_iff, RawResult.ok.injEq] at h
  obtain ⟨st, hst, h1, h2, h3, h4, h5, h6, h7, h8, h9⟩ := h
  exact ⟨st, hst, h1, h2, h3, h4, h5, h6, h7, h8, h9.symm⟩

theorem retire_ok_inv {env q memo s s'} (h : retire env q memo s = .ok s') :
    ∃ st ns, lookupStat s q.sym.code = some st ∧ q.sym = st.supply.sym ∧ 0 < q.amount ∧
      assetSub st.supply q = .ok ns ∧
      sub_balance st.issuer q
        (modifyStat s q.sym.code (fun c => { c with supply := ns })) = .ok s' := by
  simp only [retire, chk_ok_iff, mtch_ok_iff, mexc_ok_iff] at h
  obtain ⟨-, -, st, hst, -, -, hpos, hsym, ns, hns, hsub⟩ := h
  exact ⟨st, ns, hst, hsym, hpos, hns, hsub⟩

/-- Precondition for `add_balance` to run to completion: either no row exists
yet, or the existing row has the same symbol and the credited balance stays
within the valid asset range. -/
def AddBalanceOk (o : Name) (v : Asset) (s : State) : Prop :=
  match findAccount s o v.sym.code with
  | none => True
  | some r => r.bal.sym = v.sym ∧ -maxAmount ≤ r.bal.amount + v.amount ∧
      r.bal.amount + v.amount ≤ maxAmount

instance {o v s} : Decidable (AddBalanceOk o v s) := by
  unfold AddBalanceOk
  cases findAccount s o v.sym.code <;> infer_instance

theorem add_balance_ok_of {o v s} (h : AddBalanceOk o v s) :
    ∃ s', add_balance o v s = .ok s' := by
  unfold AddBalanceOk at h
  unfold add_balance
  cases hf : findAccount s o v.sym.code with
  | none => exact ⟨_, rfl⟩
  | some r =>
    rw [hf] at h
    obtain ⟨hsym, hlo, hhi⟩ := h
    have hadd : assetAdd r.bal v = .ok ⟨r.bal.amount + v.amount, r.bal.sym⟩ := by
      unfold assetAdd
      rw [if_pos hsym, if_neg (not_lt.mpr hlo), if_neg (not_lt.mpr hhi)]
    refine ⟨modifyAccount s o v.sym.code ⟨r.bal.amount + v.amount, r.bal.sym⟩, ?_⟩
    show mexc (assetAdd r.bal v) s
      (fun nb => RawResult.ok (modifyAccount s o v.sym.code nb)) = _
    rw [hadd]
    rfl

/-! Concrete fixtures used by witnesses and counterexamples. -/

/-- Demonstration environment: time `0`, every authorization granted, every
account existing, every symbol valid, contract account `0`. -/
def envT : Env := ⟨0, fun _ => true, fun _ => true, fun _ => true, 0⟩

/-- A demonstration token symbol (code 1, precision 4). -/
def symT : Sym := ⟨1, 4⟩

/-- A second symbol, distinct from `symT` in both code and precision. -/
def symO : Sym := ⟨2, 0⟩

/-- The empty deployment state. -/
def sEmpty : State := ⟨[], []⟩

/-- State after `create(5, 1000000 TKN)`. -/
def sA1 : State := applyAction envT (.create 5 ⟨1000000, symT⟩) sEmpty

/-- State after additionally `issue(5, 100000 TKN)`. -/
def sA2 : State := applyAction envT (.issue 5 ⟨100000, symT⟩ "") sA1

/-- The `stats` row of `sA2`. -/
def stA2 : CurrencyStats :=
  { supply := ⟨100000, symT⟩,
    max_supply := ⟨1000000, symT⟩,
    issuer := 5,
    avg_daily_inflation := ⟨100000, symT⟩,
    avg_yearly_inflation := ⟨100000, symT⟩,
    recall_ := true,
    authorize := true,
    authorizer := 0,
    last_update := 0,
    daily_inf_per_limit := 10000000000000000000,
    yearly_inf_per_limit := 10000000000000000000,
    allowed_daily_inflation := ⟨1000000, symT⟩ }

/-- A `stats` row with supply 10, of which the issuer holds only 5 (the other
5 were transferred away). -/
def stD6 : CurrencyStats :=
  { supply := ⟨10, symT⟩,
    max_supply := ⟨1000, symT⟩,
    issuer := 5,
    avg_daily_inflation := ⟨10, symT⟩,
    avg_yearly_inflation := ⟨10, symT⟩,
    recall_ := true,
    authorize := true,
    authorizer := 0,
    last_update := 0,
    daily_inf_per_limit := 10000000000000000000,
    yearly_inf_per_limit := 10000000000000000000,
    allowed_daily_inflation := ⟨1000, symT⟩ }

/-- A state in which retiring 7 debits the supply and then aborts on the
issuer's insufficient balance. -/
def sD6 : State := ⟨[(1, stD6)], [⟨5, ⟨5, symT⟩⟩, ⟨6, ⟨5, symT⟩⟩]⟩

/-- The intra-transaction state at the failure point of that retire: the
supply is already decremented to 3. -/
def sD6p : State :=
  ⟨[(1, { stD6 with supply := ⟨3, symT⟩ })], [⟨5, ⟨5, symT⟩⟩, ⟨6, ⟨5, symT⟩⟩]⟩

theorem reach_sA2 : Reachable sA2 :=
  Reachable.step envT (.issue 5 ⟨100000, symT⟩ "") sA1 sA2
    (Reachable.step envT (.create 5 ⟨1000000, symT⟩) sEmpty sA1 Reachable.init (by decide))
    (by decide)

theorem find?_unique {l : List BalRow} {o c r0 r} (hnd : NodupKeys l)
    (hf : l.find? (keyMatch o c) = some r0) (hm : r ∈ l) (hk : keyMatch o c r = true) :
    r = r0 := by
  induction l with
  | nil => cases hf
  | cons a t ih =>
    cases hnd with
    | cons hhead htail =>
      by_cases hka : keyMatch o c a = true
      · rw [List.find?_cons_of_pos _ hka] at hf
        injection hf with hf
        rcases List.mem_cons.mp hm with h1 | h1
        · rw [h1, hf]
        · exact absurd hk (by simp [pairwise_head_no_other hhead hka r h1])
      · rw [List.find?_cons_of_neg _ hka] at hf
        rcases List.mem_cons.mp hm with h1 | h1
        · rw [h1] at hk
          exact absurd hk hka
        · exact ih htail hf h1

/-- C1: for every committed sequence of actions starting from the empty state
(in particular every sequence of issue, transfer and retire following a
create), the supply recorded in a symbol's `stats` row equals the sum of all
account balances booked for that symbol after every committed operation. -/
theorem c1_supply_conservation {s : State} (h : Reachable s) :
    ∀ c st, lookupStat s c = some st → st.supply.amount = sumBal s.accounts c :=
  (reachable_inv h).1

/-- Witness for C1 at a concrete reachable state: after create and issue the
recorded supply `100000` equals the booked balance sum. -/
theorem c1_supply_conservation_witness :
    lookupStat sA2 1 = some stA2 ∧ stA2.supply.amount = sumBal sA2.accounts 1 :=
  ⟨by decide, c1_supply_conservation reach_sA2 1 stA2 (by decide)⟩

/-- C5: `issue` fails whenever the issued quantity exceeds
`max_supply - supply`, and on success the new supply still does not exceed
`max_supply` (source line 61). -/
theorem c5_issue_max_supply {env : Env} {to_ : Name} {q : Asset} {memo : String}
    {s : State} {st : CurrencyStats}
    (hst : lookupStat s q.sym.code = some st)
    (_hle : st.supply.amount ≤ st.max_supply.amount) :
    (st.max_supply.amount - st.supply.amount < q.amount →
      (issue env to_ q memo s).isOk = false) ∧
    (∀ s' st', issue env to_ q memo s = .ok s' →
      lookupStat s' q.sym.code = some st' →
      st'.supply.amount ≤ st'.max_supply.amount) := by
  constructor
  · intro hgt
    rw [Bool.eq_false_iff]
    intro hok
    obtain ⟨s', hs'⟩ := isOk_iff_exists.mp hok
    obtain ⟨st0, nda, nya, ns, hst0, -, -, hle0, -, -⟩ := issue_ok_inv hs'
    rw [hst] at hst0
    injection hst0 with hst0
    subst hst0
    omega
  · intro s' st' hs' hlook
    obtain ⟨st0, nda, nya, ns, hst0, -, -, hle0, hns, hcommit⟩ := issue_ok_inv hs'
    rw [hst] at hst0
    injection hst0 with hst0
    subst hst0
    obtain ⟨-, hnseq, -, -⟩ := assetAdd_ok hns
    unfold issue_commit at hcommit
    have hstats := add_balance_stats hcommit
    rw [lookupStat_congr hstats] at hlook
    rcases lookup_modifyStat_inv hst hlook with ⟨-, hst'⟩ | ⟨hne, -⟩
    · subst hst'
      simp [hnseq]
      omega
    · exact absurd rfl hne

/-- Witness for C5: issuing 950000 on top of supply 100000 with max 1000000
fails (the scenario of spec section 8). -/
theorem c5_issue_max_supply_witness :
    (issue envT 5 ⟨950000, symT⟩ "" sA2).isOk = false :=
  (@c5_issue_max_supply envT 5 ⟨950000, symT⟩ "" sA2 stA2 (by decide) (by decide)).1 (by decide)

/-- C6: every failure aborts the whole action — the host transition
`applyAction` leaves the state exactly as before the call — even when the
failing check came after earlier mutations, as in `retire`, which decrements
the supply before debiting the issuer and whose intra-transaction state at the
failure point therefore differs from the pre-call state. -/
theorem c6_atomic_rollback :
    (∀ env a s m sp, execRaw env a s = .fail m sp → applyAction env a s = s) ∧
    (execRaw envT (.retire ⟨7, symT⟩ "") sD6 = .fail "overdrawn balance" sD6p ∧
      sD6p ≠ sD6) := by
  constructor
  · intro env a s m sp h
    unfold applyAction
    rw [h]
  · exact ⟨by decide, by decide⟩

/-- Witness for C6: the committed transition of the failing retire is the
identity on the pre-call state. -/
theorem c6_atomic_rollback_witness :
    applyAction envT (.retire ⟨7, symT⟩ "") sD6 = sD6 :=
  c6_atomic_rollback.1 envT (.retire ⟨7, symT⟩ "") sD6 "overdrawn balance" sD6p (by decide)

/-- C7: `sub_balance` fails when no row for (owner, symbol) exists or when the
balance is smaller than the debited amount; on success it decrements the row
in place and the new balance is non-negative. -/
theorem c7_sub_balance {owner : Name} {value : Asset} {s : State}
    (hnd : NodupKeys s.accounts) :
    ((¬ ∃ r ∈ s.accounts, r.owner = owner ∧ r.bal.sym = value.sym) →
        (sub_balance owner value s).isOk = false) ∧
    ((∃ r ∈ s.accounts, r.owner = owner ∧ r.bal.sym = value.sym ∧
        r.bal.amount < value.amount) → (sub_balance owner value s).isOk = false) ∧
    (∀ s', sub_balance owner value s = .ok s' →
      ∃ r, findAccount s owner value.sym.code = some r ∧ value.amount ≤ r.bal.amount ∧
        s' = modifyAccount s owner value.sym.code ⟨r.bal.amount - value.amount, r.bal.sym⟩ ∧
        0 ≤ r.bal.amount - value.amount) := by
  refine ⟨?_, ?_, ?_⟩
  · intro hno
    rw [Bool.eq_false_iff]
    intro hok
    obtain ⟨s', hs'⟩ := isOk_iff_exists.mp hok
    obtain ⟨r, nb, hf, hge, hsub, -⟩ := sub_balance_ok_inv hs'
    obtain ⟨hsymeq, -, -, -⟩ := assetSub_ok hsub
    have hmem : r ∈ s.accounts := List.mem_of_find?_eq_some hf
    have hk := List.find?_some hf
    exact hno ⟨r, hmem, (keyMatch_iff.mp hk).1, hsymeq⟩
  · rintro ⟨r, hmem, hrown, hrsym, hrlt⟩
    rw [Bool.eq_false_iff]
    intro hok
    obtain ⟨s', hs'⟩ := isOk_iff_exists.mp hok
    obtain ⟨r0, nb, hf, hge, hsub, -⟩ := sub_balance_ok_inv hs'
    have hk : keyMatch owner value.sym.code r = true :=
      keyMatch_iff.mpr ⟨hrown, by rw [hrsym]⟩
    have hr0 : r = r0 := find?_unique hnd hf hmem hk
    rw [hr0] at hrlt
    omega
  · intro s' hs'
    obtain ⟨r, nb, hf, hge, hsub, rfl⟩ := sub_balance_ok_inv hs'
    obtain ⟨-, hnb, -, -⟩ := assetSub_ok hsub
    exact ⟨r, hf, hge, by rw [hnb], by omega⟩

/-- Witness for C7: debiting 200000 from a balance of 100000 is refused as
overdrawn. -/
theorem c7_sub_balance_witness :
    (sub_balance 5 ⟨200000, symT⟩ sA2).isOk = false :=
  (@c7_sub_balance 5 ⟨200000, symT⟩ sA2 (by decide)).2.1 (by decide)

/-- C10: `retire` fails for every quantity and state whenever the memo
exceeds 256 bytes (source line 142). -/
theorem c10_retire_memo_limit (env : Env) (q : Asset) (memo : String) (s : State)
    (h : 256 < memo.utf8ByteSize) : (retire env q memo s).isOk = false := by
  rw [Bool.eq_false_iff]
  intro hok
  obtain ⟨s', hs'⟩ := isOk_iff_exists.mp hok
  simp only [retire, chk_ok_iff, mtch_ok_iff, mexc_ok_iff] at hs'
  obtain ⟨-, hm, -⟩ := hs'
  omega

/-- A 257-byte memo. -/
def memo257 : String := String.mk (List.replicate 257 'a')

set_option maxRecDepth 4000 in
/-- Witness for C10 with a concrete 257-byte memo. -/
theorem c10_retire_memo_limit_witness :
    (retire envT ⟨1, symT⟩ memo257 sEmpty).isOk = false :=
  c10_retire_memo_limit envT ⟨1, symT⟩ memo257 sEmpty (by decide)

/-- C2 counterexample: at `elapsed = 2^58`, `window = 86400`, prior average
1000 and new amount 500, the claimed formula (with exact arithmetic) yields
500, but the code computes `elapsed * 1000000` in `uint64_t`, which wraps to
0 (`2^58 * 10^6` is a multiple of `2^64`), so no decay happens at all and
`calculate_avg` returns 1500. -/
theorem c2_counterexample :
    calculate_avg (2 ^ 58) 86400 ⟨1000, symT⟩ ⟨500, symT⟩ = .ok ⟨1500, symT⟩ ∧
    (1000 * (1000000 - min 1000000 (2 ^ 58 * 1000000 / 86400)) / 1000000 + 500 : Nat) = 500 ∧
    (1500 : Int) ≠ 500 :=
  ⟨rfl, by decide, by decide⟩

/-- C2 (amended): for every prior average (in the int64 domain), elapsed
time, positive window and new amount such that `elapsed * 1000000` does not
overflow `uint64_t` and the result stays within the valid asset range, the
estimator returns
`prior_avg * (1000000 - min 1000000 (elapsed * 1000000 / window)) / 1000000 + new_amount`,
with the division truncating toward zero. -/
theorem c2_decay_and_add (delta window : Nat) (avg new_ : Asset)
    (_hw : 0 < window) (hd : delta * 1000000 < 2 ^ 64)
    (_h64lo : -(2 ^ 63) ≤ avg.amount) (_h64hi : avg.amount < 2 ^ 63)
    (hlo : -maxAmount ≤
      (avg.amount * ((1000000 - min 1000000 (delta * 1000000 / window) : Nat) : Int)).tdiv
        1000000 + new_.amount)
    (hhi : (avg.amount * ((1000000 - min 1000000 (delta * 1000000 / window) : Nat) : Int)).tdiv
        1000000 + new_.amount ≤ maxAmount) :
    calculate_avg delta window avg new_ =
      .ok ⟨(avg.amount * ((1000000 - min 1000000 (delta * 1000000 / window) : Nat) : Int)).tdiv
        1000000 + new_.amount, new_.sym⟩ := by
  have hppm : (if delta * 1000000 % 2 ^ 64 / window > 1000000 then 1000000
      else delta * 1000000 % 2 ^ 64 / window) = min 1000000 (delta * 1000000 / window) := by
    rw [Nat.mod_eq_of_lt hd]
    by_cases h : delta * 1000000 / window > 1000000
    · rw [if_pos h]
      exact (min_eq_left h.le).symm
    · rw [if_neg h]
      exact (min_eq_right (not_lt.mp h)).symm
  show assetAdd ⟨(avg.amount * ((1000000 - (if delta * 1000000 % 2 ^ 64 / window > 1000000
      then 1000000 else delta * 1000000 % 2 ^ 64 / window) : Nat) : Int)).tdiv (1000000 : Int),
      new_.sym⟩ new_ = _
  rw [hppm]
  unfold assetAdd
  rw [if_pos rfl, if_neg (not_lt.mpr hlo), if_neg (not_lt.mpr hhi)]

/-- Witness for C2 (amended) at the three vectors of the spec: no elapsed
time keeps the full prior average, a fully or over-elapsed window decays it
completely. -/
theorem c2_decay_and_add_witness :
    calculate_avg 0 86400 ⟨1000, symT⟩ ⟨500, symT⟩ = .ok ⟨1500, symT⟩ ∧
    calculate_avg 86400 86400 ⟨1000, symT⟩ ⟨500, symT⟩ = .ok ⟨500, symT⟩ ∧
    calculate_avg 172800 86400 ⟨1000, symT⟩ ⟨500, symT⟩ = .ok ⟨500, symT⟩ := by
  refine ⟨?_, ?_, ?_⟩
  · exact (@c2_decay_and_add 0 86400 ⟨1000, symT⟩ ⟨500, symT⟩ (by decide) (by decide)
      (by decide) (by decide) (by decide) (by decide)).trans rfl
  · exact (@c2_decay_and_add 86400 86400 ⟨1000, symT⟩ ⟨500, symT⟩ (by decide) (by decide)
      (by decide) (by decide) (by decide) (by decide)).trans rfl
  · exact (@c2_decay_and_add 172800 86400 ⟨1000, symT⟩ ⟨500, symT⟩ (by decide) (by decide)
      (by decide) (by decide) (by decide) (by decide)).trans rfl

theorem step_stats_monotonic {env a s s' c st1 st2}
    (h : execRaw env a s = .ok s') (h1 : lookupStat s c = some st1)
    (h2 : lookupStat s' c = some st2) :
    (st2.recall_ = true → st1.recall_ = true) ∧
    (st2.authorize = true → st1.authorize = true) ∧
    st2.daily_inf_per_limit ≤ st1.daily_inf_per_limit ∧
    st2.yearly_inf_per_limit ≤ st1.yearly_inf_per_limit ∧
    st2.allowed_daily_inflation.amount ≤ st1.allowed_daily_inflation.amount := by
  cases a with
  | create i m =>
    simp only [execRaw, create, chk_ok_iff, RawResult.ok.injEq] at h
    obtain ⟨-, -, -, -, hnone, hs'⟩ := h
    subst hs'
    rw [show lookupStat { s with stats := (m.sym.code, createdStats env i m) :: s.stats } c
      = findStat ((m.sym.code, createdStats env i m) :: s.stats) c from rfl,
      findStat_cons] at h2
    by_cases hc : m.sym.code = c
    · rw [hc] at hnone
      rw [hnone] at h1
      cases h1
    · rw [if_neg hc] at h2
      unfold lookupStat at h1
      rw [h1] at h2
      injection h2 with h2
      subst h2
      exact ⟨fun h => h, fun h => h, le_refl _, le_refl _, le_refl _⟩
  | issue t q memo =>
    simp only [execRaw] at h
    obtain ⟨st, nda, nya, ns, hst, -, -, -, -, hcommit⟩ := issue_ok_inv h
    unfold issue_commit at hcommit
    rw [lookupStat_congr (add_balance_stats hcommit)] at h2
    rcases lookup_modifyStat_inv h1 h2 with ⟨-, hst2⟩ | ⟨-, hst2⟩ <;> subst hst2 <;>
      exact ⟨fun h => h, fun h => h, le_refl _, le_refl _, le_refl _⟩
  | update sym2 r2 au2 az2 d2 y2 al2 =>
    simp only [execRaw] at h
    obtain ⟨st, hst, -, hrec, hau, -, -, hd, hy, hal, hs'⟩ := update_ok_inv h
    subst hs'
    rcases lookup_modifyStat_inv h1 h2 with ⟨hc, hst2⟩ | ⟨-, hst2⟩
    · subst hst2
      rw [hc, hst] at h1
      injection h1 with h1
      subst h1
      exact ⟨hrec, hau, hd, hy, hal⟩
    · subst hst2
      exact ⟨fun h => h, fun h => h, le_refl _, le_refl _, le_refl _⟩
  | retire q memo =>
    simp only [execRaw] at h
    obtain ⟨st, ns, hst, -, -, -, hsub⟩ := retire_ok_inv h
    rw [lookupStat_congr (sub_balance_stats hsub)] at h2
    rcases lookup_modifyStat_inv h1 h2 with ⟨-, hst2⟩ | ⟨-, hst2⟩ <;> subst hst2 <;>
      exact ⟨fun h => h, fun h => h, le_refl _, le_refl _, le_refl _⟩
  | transfer f2 t2 q memo =>
    simp only [execRaw, transfer, chk_ok_iff, mtch_ok_iff, seqR_ok_iff] at h
    obtain ⟨-, -, -, st, hst, -, -, -, -, s1, hsub, hadd⟩ := h
    have hstats : s'.stats = s.stats := (add_balance_stats hadd).trans (sub_balance_stats hsub)
    rw [lookupStat_congr hstats, h1] at h2
    injection h2 with h2
    subst h2
    exact ⟨fun h => h, fun h => h, le_refl _, le_refl _, le_refl _⟩
  | open_ o sym2 p =>
    simp only [execRaw, open_, chk_ok_iff, mtch_ok_iff] at h
    obtain ⟨-, -, st, hst, -, h⟩ := h
    cases hf : findAccount s o sym2.code with
    | some r =>
      rw [hf] at h
      cases h
      rw [h1] at h2
      injection h2 with h2
      subst h2
      exact ⟨fun h => h, fun h => h, le_refl _, le_refl _, le_refl _⟩
    | none =>
      rw [hf] at h
      cases h
      rw [show lookupStat { s with accounts := ⟨o, ⟨0, sym2⟩⟩ :: s.accounts } c
        = lookupStat s c from rfl, h1] at h2
      injection h2 with h2
      subst h2
      exact ⟨fun h => h, fun h => h, le_refl _, le_refl _, le_refl _⟩
  | close o sym2 =>
    simp only [execRaw, close, chk_ok_iff, mtch_ok_iff, RawResult.ok.injEq] at h
    obtain ⟨-, r, hf, hz, hs'⟩ := h
    subst hs'
    rw [show lookupStat { s with accounts := s.accounts.eraseP (keyMatch o sym2.code) } c
      = lookupStat s c from rfl, h1] at h2
    injection h2 with h2
    subst h2
    exact ⟨fun h => h, fun h => h, le_refl _, le_refl _, le_refl _⟩

/-- A freshly created token with max supply 1000, used for the `update`
claims; all governance switches are still enabled and both ppm limits are at
the `10^19` sentinel. -/
def stU : CurrencyStats := createdStats envT 5 ⟨1000, symT⟩

/-- State holding exactly the `stU` row. -/
def sU : State := ⟨[(1, stU)], []⟩

/-- C4 counterexample: an `update` authorized by the issuer that attempts
none of the five loosenings still fails, because it passes a non-empty
`authorizer` together with `authorize = false`; the claim's "otherwise
succeeds" is therefore false as stated. -/
theorem c4_counterexample :
    lookupStat sU 1 = some stU ∧
    envT.auth stU.issuer = true ∧
    ¬((true = true ∧ stU.recall_ = false) ∨ (false = true ∧ stU.authorize = false) ∨
      stU.daily_inf_per_limit < 10 ^ 19 ∨ stU.yearly_inf_per_limit < 10 ^ 19 ∨
      stU.allowed_daily_inflation.amount < (1000 : Int)) ∧
    (update envT symT true false 7 (10 ^ 19) (10 ^ 19) ⟨1000, symT⟩ sU).isOk = false := by
  refine ⟨by decide, by decide, by decide, by decide⟩

/-- C4 (amended): for an existing symbol and an update authorized by the
issuer, the call fails whenever one of the five loosenings is attempted
(recall or authorize false-to-true, or an increase of either ppm limit or of
the absolute daily limit); when none is attempted it succeeds and persists
the supplied governance values, provided additionally that the authorizer
field is empty when `authorize` is false and names an existing account when
non-empty; and across every committed action the two switches only ever move
true-to-false and the three numeric limits never increase. -/
theorem c4_update_tighten_only
    {env : Env} {sym : Sym} {r au : Bool} {az : Name} {d y : Nat} {al : Asset}
    {s : State} {st : CurrencyStats}
    (hst : lookupStat s sym.code = some st)
    (hauth : env.auth st.issuer = true) :
    (((r = true ∧ st.recall_ = false) ∨ (au = true ∧ st.authorize = false) ∨
        st.daily_inf_per_limit < d ∨ st.yearly_inf_per_limit < y ∨
        st.allowed_daily_inflation.amount < al.amount) →
      (update env sym r au az d y al s).isOk = false) ∧
    ((r = true → st.recall_ = true) → (au = true → st.authorize = true) →
      d ≤ st.daily_inf_per_limit → y ≤ st.yearly_inf_per_limit →
      al.amount ≤ st.allowed_daily_inflation.amount →
      (au = true → az ≠ 0 → env.isAccount az = true) →
      (au = false → az = 0) →
      update env sym r au az d y al s = .ok (modifyStat s sym.code (fun c =>
        { c with recall_ := r, authorize := au, authorizer := az,
                 daily_inf_per_limit := d, yearly_inf_per_limit := y,
                 allowed_daily_inflation := al }))) ∧
    (∀ env2 a s2 s2' c st1 st2, execRaw env2 a s2 = .ok s2' →
      lookupStat s2 c = some st1 → lookupStat s2' c = some st2 →
      (st2.recall_ = true → st1.recall_ = true) ∧
      (st2.authorize = true → st1.authorize = true) ∧
      st2.daily_inf_per_limit ≤ st1.daily_inf_per_limit ∧
      st2.yearly_inf_per_limit ≤ st1.yearly_inf_per_limit ∧
      st2.allowed_daily_inflation.amount ≤ st1.allowed_daily_inflation.amount) := by
  refine ⟨?_, ?_, fun env2 a s2 s2' c st1 st2 h h1 h2 => step_stats_monotonic h h1 h2⟩
  · intro hloose
    rw [Bool.eq_false_iff]
    intro hok
    obtain ⟨s', hs'⟩ := isOk_iff_exists.mp hok
    obtain ⟨st0, hst0, -, hrec, hau, -, -, hd, hy, hal, -⟩ := update_ok_inv hs'
    rw [hst] at hst0
    injection hst0 with hst0
    subst hst0
    rcases hloose with ⟨h1, h2⟩ | ⟨h1, h2⟩ | h1 | h1 | h1
    · rw [hrec h1] at h2
      cases h2
    · rw [hau h1] at h2
      cases h2
    · omega
    · omega
    · omega
  · intro hrec hau hd hy hal hacct hempty
    simp only [update, mtch_ok_iff, chk_ok_iff]
    exact ⟨st, hst, hauth, hrec, hau, hacct, hempty, hd, hy, hal, trivial⟩

/-- Witness for C4 (amended): a pure tightening (same switches, same limits)
succeeds and persists the supplied values. -/
theorem c4_update_tighten_only_witness :
    update envT symT true true 0 (10 ^ 19) (10 ^ 19) ⟨1000, symT⟩ sU =
      .ok (modifyStat sU symT.code (fun c =>
        { c with recall_ := true, authorize := true, authorizer := 0,
                 daily_inf_per_limit := 10 ^ 19, yearly_inf_per_limit := 10 ^ 19,
                 allowed_daily_inflation := ⟨1000, symT⟩ })) :=
  (@c4_update_tighten_only envT symT true true 0 (10 ^ 19) (10 ^ 19) ⟨1000, symT⟩ sU stU
    (by decide) (by decide)).2.1 (by decide) (by decide) (by decide) (by decide) (by decide)
    (by decide) (by decide)

/-- C9: `update` validates the supplied `allowed_daily_inflation` by amount
alone and stores the asset verbatim, so a successful update can replace it
with an asset of a different symbol and precision than the token's. -/
theorem c9_update_allowed_symbol_unchecked :
    (∀ env sym r au az d y al s s', update env sym r au az d y al s = .ok s' →
      ∃ st, lookupStat s sym.code = some st ∧
        lookupStat s' sym.code = some
          { st with recall_ := r, authorize := au, authorizer := az,
                    daily_inf_per_limit := d, yearly_inf_per_limit := y,
                    allowed_daily_inflation := al }) ∧
    ((update envT symT true true 0 (10 ^ 19) (10 ^ 19) ⟨500, symO⟩ sU).isOk = true ∧
      lookupStat (applyAction envT
          (.update symT true true 0 (10 ^ 19) (10 ^ 19) ⟨500, symO⟩) sU) 1 =
        some { stU with allowed_daily_inflation := ⟨500, symO⟩ } ∧
      (⟨500, symO⟩ : Asset).sym ≠ stU.supply.sym) := by
  constructor
  · intro env sym r au az d y al s s' h
    obtain ⟨st, hst, -, -, -, -, -, -, -, -, hs'⟩ := update_ok_inv h
    subst hs'
    refine ⟨st, hst, ?_⟩
    rw [lookupStat_modifyStat_self, hst]
    rfl
  · exact ⟨by decide, by decide, by decide⟩

/-- Witness for C9: the concrete cross-symbol update stores the supplied
asset verbatim. -/
theorem c9_update_allowed_symbol_unchecked_witness :
    ∃ st, lookupStat sU symT.code = some st ∧
      lookupStat (modifyStat sU symT.code (fun c =>
        { c with recall_ := true, authorize := true, authorizer := 0,
                 daily_inf_per_limit := 10 ^ 19, yearly_inf_per_limit := 10 ^ 19,
                 allowed_daily_inflation := ⟨500, symO⟩ })) symT.code = some
        { st with recall_ := true, authorize := true, authorizer := 0,
                  daily_inf_per_limit := 10 ^ 19, yearly_inf_per_limit := 10 ^ 19,
                  allowed_daily_inflation := ⟨500, symO⟩ } :=
  c9_update_allowed_symbol_unchecked.1 envT symT true true 0 (10 ^ 19) (10 ^ 19)
    ⟨500, symO⟩ sU _ (by decide)

/-! Reachable fixture for C3: a token whose supply was issued high, retired
down to 1, and whose absolute daily cap was then tightened to 0, so that the
next issue runs the ppm check against a prior supply of 1 with a huge
average. -/

def sW1 : State := applyAction envT (.create 5 ⟨1000000000000000, symT⟩) sEmpty

def sW2 : State := applyAction envT (.issue 5 ⟨20000000000000, symT⟩ "") sW1

def sW3 : State := applyAction envT (.retire ⟨19999999999999, symT⟩ "") sW2

def sW : State := applyAction envT
  (.update symT true true 0 10000000000000000000 10000000000000000000 ⟨0, symT⟩) sW3

/-- The `stats` row of `sW`. -/
def stW : CurrencyStats :=
  { supply := ⟨1, symT⟩,
    max_supply := ⟨1000000000000000, symT⟩,
    issuer := 5,
    avg_daily_inflation := ⟨20000000000000, symT⟩,
    avg_yearly_inflation := ⟨20000000000000, symT⟩,
    recall_ := true,
    authorize := true,
    authorizer := 0,
    last_update := 0,
    daily_inf_per_limit := 10000000000000000000,
    yearly_inf_per_limit := 10000000000000000000,
    allowed_daily_inflation := ⟨0, symT⟩ }

theorem reach_sW : Reachable sW :=
  Reachable.step envT
    (.update symT true true 0 10000000000000000000 10000000000000000000 ⟨0, symT⟩) sW3 sW
    (Reachable.step envT (.retire ⟨19999999999999, symT⟩ "") sW2 sW3
      (Reachable.step envT (.issue 5 ⟨20000000000000, symT⟩ "") sW1 sW2
        (Reachable.step envT (.create 5 ⟨1000000000000000, symT⟩) sEmpty sW1
          Reachable.init (by decide))
        (by decide))
      (by decide))
    (by decide)

/-- C3 counterexample: at the reachable state `sW` the freshly computed daily
average (20000000000001) exceeds the stored absolute cap (0), and the exact
ratio `new_daily_avg * 1000000 / prior_supply` is NOT strictly below the
stored daily ppm limit, yet the issue succeeds: the `int128_t` ratio is
truncated to `uint64_t` (reduced mod `2^64`) before the comparison, and the
wrapped value passes the check. -/
theorem c3_counterexample :
    Reachable sW ∧
    lookupStat sW 1 = some stW ∧
    calculate_avg (envT.now - stW.last_update) (60 * 60 * 24) stW.avg_daily_inflation
      ⟨1, symT⟩ = .ok ⟨20000000000001, symT⟩ ∧
    (20000000000001 : Int) > stW.allowed_daily_inflation.amount ∧
    ¬(((20000000000001 : Int) * 1000000).tdiv stW.supply.amount <
        (stW.daily_inf_per_limit : Int)) ∧
    (issue envT 5 ⟨1, symT⟩ "" sW).isOk = true :=
  ⟨reach_sW, by decide, rfl, by decide, by decide, by decide⟩

/-- C3 (amended): with all other preconditions of `issue` satisfied, a
positive prior supply, and a creditable issuer balance row, the issue
succeeds if and only if either the new daily average does not exceed the
stored absolute cap (no ppm check is run at all, regardless of the yearly
figures), or both ppm ratios — computed as `int128_t` truncating divisions by
the prior supply and converted to `uint64_t`, i.e. reduced mod `2^64` — are
strictly below the stored limits. -/
theorem c3_issue_inflation_gate
    {env : Env} {to_ : Name} {q : Asset} {memo : String} {s : State} {st : CurrencyStats}
    {nda nya ns : Asset}
    (hst : lookupStat s q.sym.code = some st)
    (hvsym : env.validSym q.sym = true)
    (hmemo : memo.utf8ByteSize ≤ 256)
    (hto : to_ = st.issuer)
    (hauth : env.auth st.issuer = true)
    (hqv : q.is_valid env)
    (hqpos : 0 < q.amount)
    (hqsym : q.sym = st.supply.sym)
    (hqle : q.amount ≤ st.max_supply.amount - st.supply.amount)
    (hnda : calculate_avg (env.now - st.last_update) (60 * 60 * 24)
      st.avg_daily_inflation q = .ok nda)
    (hnya : calculate_avg (env.now - st.last_update) (60 * 60 * 24 * 365)
      st.avg_yearly_inflation q = .ok nya)
    (hns : assetAdd st.supply q = .ok ns)
    (hsup : 0 < st.supply.amount)
    (hbal : AddBalanceOk st.issuer q s) :
    (issue env to_ q memo s).isOk = true ↔
      (nda.amount ≤ st.allowed_daily_inflation.amount ∨
        (toU64 ((nda.amount * 1000000).tdiv st.supply.amount) < st.daily_inf_per_limit ∧
         toU64 ((nya.amount * 1000000).tdiv st.supply.amount) < st.yearly_inf_per_limit)) := by
  rw [isOk_iff_exists]
  constructor
  · rintro ⟨s', hs'⟩
    simp only [issue, chk_ok_iff, mtch_ok_iff, mexc_ok_iff] at hs'
    obtain ⟨-, -, st0, hst0, -, -, -, -, -, -, nda0, hnda0, nya0, hnya0, ns0, hns0, htail⟩ := hs'
    rw [hst] at hst0
    injection hst0 with hst0
    subst hst0
    rw [hnda] at hnda0
    injection hnda0 with hnda0
    subst hnda0
    rw [hnya] at hnya0
    injection hnya0 with hnya0
    subst hnya0
    by_cases hgt : nda.amount > st.allowed_daily_inflation.amount
    · rw [if_pos hgt] at htail
      simp only [chk_ok_iff] at htail
      exact Or.inr ⟨htail.2.1, htail.2.2.1⟩
    · exact Or.inl (not_lt.mp hgt)
  · intro hrhs
    have hbal' : AddBalanceOk st.issuer q (modifyStat s q.sym.code (fun c =>
      { c with supply := ns, last_update := env.now,
               avg_daily_inflation := nda, avg_yearly_inflation := nya })) := hbal
    obtain ⟨s2, hs2⟩ := add_balance_ok_of hbal'
    refine ⟨s2, ?_⟩
    simp only [issue, chk_ok_iff, mtch_ok_iff, mexc_ok_iff]
    refine ⟨hvsym, hmemo, st, hst, hto, hauth, hqv, hqpos, hqsym, hqle, nda, hnda,
      nya, hnya, ns, hns, ?_⟩
    by_cases hgt : nda.amount > st.allowed_daily_inflation.amount
    · rw [if_pos hgt]
      rcases hrhs with hab | ⟨hd, hy⟩
      · omega
      · simp only [chk_ok_iff]
        exact ⟨by omega, hd, hy, hs2⟩
    · rw [if_neg hgt]
      exact hs2

/-- Witness for C3 (amended): at `sW` the gate is the wrapped ppm comparison,
which passes, so the issue succeeds. -/
theorem c3_issue_inflation_gate_witness :
    (issue envT 5 ⟨1, symT⟩ "" sW).isOk = true :=
  (@c3_issue_inflation_gate envT 5 ⟨1, symT⟩ "" sW stW ⟨20000000000001, symT⟩
    ⟨20000000000001, symT⟩ ⟨2, symT⟩ (by decide) (by decide) (by decide) (by decide)
    (by decide) (by decide) (by decide) (by decide) (by decide) rfl rfl rfl
    (by decide) (by decide)).mpr (Or.inr ⟨by decide, by decide⟩)

/-! Reachable fixture for C8: all supply retired, then the absolute daily cap
tightened to 0, so the next issue divides by a prior supply of zero. -/

def sZ1 : State := applyAction envT (.create 5 ⟨1000, symT⟩) sEmpty

def sZ2 : State := applyAction envT (.issue 5 ⟨10, symT⟩ "") sZ1

def sZ3 : State := applyAction envT (.retire ⟨10, symT⟩ "") sZ2

def sZ : State := applyAction envT
  (.update symT true true 0 10000000000000000000 10000000000000000000 ⟨0, symT⟩) sZ3

theorem reach_sZ : Reachable sZ :=
  Reachable.step envT
    (.update symT true true 0 10000000000000000000 10000000000000000000 ⟨0, symT⟩) sZ3 sZ
    (Reachable.step envT (.retire ⟨10, symT⟩ "") sZ2 sZ3
      (Reachable.step envT (.issue 5 ⟨10, symT⟩ "") sZ1 sZ2
        (Reachable.step envT (.create 5 ⟨1000, symT⟩) sEmpty sZ1
          Reachable.init (by decide))
        (by decide))
      (by decide))
    (by decide)

theorem issue_divzero_inv {env to_ q memo s sp}
    (h : issue env to_ q memo s = .fail "division by zero" sp) :
    ∃ st, lookupStat s q.sym.code = some st ∧ st.supply.amount = 0 := by
  unfold issue at h
  rcases chk_fail_inv h with ⟨-, hm, -⟩ | ⟨-, h⟩
  · exact absurd hm (by decide)
  rcases chk_fail_inv h with ⟨-, hm, -⟩ | ⟨-, h⟩
  · exact absurd hm (by decide)
  rcases mtch_fail_inv h with ⟨-, hm, -⟩ | ⟨st, hst, h⟩
  · exact absurd hm (by decide)
  rcases chk_fail_inv h with ⟨-, hm, -⟩ | ⟨-, h⟩
  · exact absurd hm (by decide)
  rcases chk_fail_inv h with ⟨-, hm, -⟩ | ⟨-, h⟩
  · exact absurd hm (by decide)
  rcases chk_fail_inv h with ⟨-, hm, -⟩ | ⟨-, h⟩
  · exact absurd hm (by decide)
  rcases chk_fail_inv h with ⟨-, hm, -⟩ | ⟨-, h⟩
  · exact absurd hm (by decide)
  rcases chk_fail_inv h with ⟨-, hm, -⟩ | ⟨-, h⟩
  · exact absurd hm (by decide)
  rcases chk_fail_inv h with ⟨-, hm, -⟩ | ⟨-, h⟩
  · exact absurd hm (by decide)
  rcases mexc_fail_inv h with ⟨he, -⟩ | ⟨nda, hnda, h⟩
  · rcases calculate_avg_error_msg he with hm | hm | hm <;> exact absurd hm (by decide)
  rcases mexc_fail_inv h with ⟨he, -⟩ | ⟨nya, hnya, h⟩
  · rcases calculate_avg_error_msg he with hm | hm | hm <;> exact absurd hm (by decide)
  rcases mexc_fail_inv h with ⟨he, -⟩ | ⟨ns, hns, h⟩
  · rcases assetAdd_error_msg he with hm | hm | hm <;> exact absurd hm (by decide)
  by_cases hgt : nda.amount > st.allowed_daily_inflation.amount
  · rw [if_pos hgt] at h
    rcases chk_fail_inv h with ⟨hz, -, -⟩ | ⟨-, h⟩
    · exact ⟨st, hst, not_ne_iff.mp hz⟩
    rcases chk_fail_inv h with ⟨-, hm, -⟩ | ⟨-, h⟩
    · exact absurd hm (by decide)
    rcases chk_fail_inv h with ⟨-, hm, -⟩ | ⟨-, h⟩
    · exact absurd hm (by decide)
    unfold issue_commit at h
    rcases add_balance_fail_msg h with hm | hm | hm <;> exact absurd hm (by decide)
  · rw [if_neg hgt] at h
    unfold issue_commit at h
    rcases add_balance_fail_msg h with hm | hm | hm <;> exact absurd hm (by decide)

/-- C8: the ppm branch of `issue` divides by the prior supply with no zero
guard.  There is a reachable state with prior supply 0 (supply fully retired
and the absolute cap tightened by `update`) at which `issue` traps on a
division by zero, while at every state whose looked-up row has positive prior
supply `issue` can never produce the division-by-zero trap. -/
theorem c8_issue_division_by_zero :
    (Reachable sZ ∧ issue envT 5 ⟨1, symT⟩ "" sZ = .fail "division by zero" sZ) ∧
    (∀ env to_ q memo s sp st, lookupStat s q.sym.code = some st →
      0 < st.supply.amount → issue env to_ q memo s ≠ .fail "division by zero" sp) := by
  constructor
  · exact ⟨reach_sZ, by decide⟩
  · intro env to_ q memo s sp st hst hpos h
    obtain ⟨st0, hst0, hz⟩ := issue_divzero_inv h
    rw [hst] at hst0
    injection hst0 with hst0
    rw [← hst0] at hz
    omega

/-- Witness for C8: at the reachable state `sA2` (prior supply 100000) the
issue cannot trap on division by zero. -/
theorem c8_issue_division_by_zero_witness :
    issue envT 5 ⟨1, symT⟩ "" sA2 ≠ .fail "division by zero" sA2 :=
  c8_issue_division_by_zero.2 envT 5 ⟨1, symT⟩ "" sA2 sA2 stA2 (by decide) (by decide)

end EosioToken
